import Mathlib

/-!
Verification of the schema-translation and registry/dispatch core of the
mcp-heritage tool-call gateway (src/parent.js) against its specification.

The JavaScript values handled at runtime (JSON-Schema nodes coming from
upstream tool catalogs, and caller-supplied argument values) are embedded as
the inductive type `JsValue`.  Zod validator objects produced by the
translator are embedded as the inductive type `Validator` together with the
evaluation function `validate`, which returns the parsed (coerced) value on
success and `none` on failure, mirroring zod parse semantics for the zod
constructions that `parent.js` uses (`z.any`, `z.string`, `z.enum`,
`z.number`, `z.number().int()`, `z.boolean`, `z.array`, `z.object` in strip
mode, `z.record(z.any())`, `z.null`, `.nullable()`, `.optional()`).
-/

/-- A JavaScript runtime value as far as the gateway core observes it:
`undef` is the JS `undefined` (absent property / absent argument), the other
constructors are the JSON shapes.  Numbers are embedded as rationals, which
keeps the `integer`/`number` distinction decidable; NaN/Infinity never arise
in the modelled paths. -/
inductive JsValue where
  | absent : JsValue
  | null : JsValue
  | bool (b : Bool) : JsValue
  | num (q : Rat) : JsValue
  | str (s : String) : JsValue
  | arr (xs : List JsValue) : JsValue
  | obj (fields : List (String × JsValue)) : JsValue

/-- JS truthiness (`!x` in the source guards): `undefined`, `null`, `false`,
`0` and `""` are falsy; every object and array (including `[]` and `{}`) is
truthy. -/
def truthy : JsValue → Bool
  | .absent => false
  | .null => false
  | .bool b => b
  | .num q => q != 0
  | .str s => s != ""
  | .arr _ => true
  | .obj _ => true

/-- `typeof x === 'object'` in JS: objects, arrays and `null`. -/
def isTypeofObject : JsValue → Bool
  | .obj _ => true
  | .arr _ => true
  | .null => true
  | _ => false

/-- The guard `!propertySchema || typeof propertySchema !== 'object'` of
`jsonSchemaPropertyToZod`, negated: the schema is a truthy object-typed
value (an object or an array). -/
def isSchemaNode (v : JsValue) : Bool := truthy v && isTypeofObject v

/-- `Array.isArray`. -/
def JsValue.isArr : JsValue → Bool
  | .arr _ => true
  | _ => false

/-- The element list of an array value (used only under `isArr`). -/
def JsValue.arrItems : JsValue → List JsValue
  | .arr xs => xs
  | _ => []

/-- `x === 'null'` for a JS value `x`: true exactly for the string "null"
(strict equality with a string is false for every non-string value). -/
def isNullStr : JsValue → Bool
  | .str s => s == "null"
  | _ => false

/-- `x === true` for a JS value `x`. -/
def isTrueVal : JsValue → Bool
  | .bool true => true
  | _ => false

/-- `x === undefined`. -/
def isAbsentVal : JsValue → Bool
  | .absent => true
  | _ => false

/-- `values.includes(s)` / `values.indexOf(s) !== -1` for a string `s`:
strict-equality membership of the string among arbitrary JS values. -/
def strMember (vals : List JsValue) (s : String) : Bool :=
  vals.any (fun e => match e with | .str t => t == s | _ => false)

/-- JS property read on an association list, `undefined` when absent. -/
def lookupD (fs : List (String × JsValue)) (k : String) : JsValue :=
  match List.lookup k fs with
  | some v => v
  | none => .absent

/-- JS property read `v[k]`: field lookup on objects, `undefined` otherwise
(array values have no named schema fields; numeric indices never arise as
schema keys). -/
def getField (v : JsValue) (k : String) : JsValue :=
  match v with
  | .obj fs => lookupD fs k
  | _ => .absent

/-- `Object.entries`: fields of an object in declaration order; index/value
pairs for an array; `[]` for primitives (boxed primitives have no own
enumerable properties; JS string character indexing is outside the modelled
schema space). -/
def jsEntries : JsValue → List (String × JsValue)
  | .obj fs => fs
  | .arr xs => xs.enum.map (fun p => (toString p.1, p.2))
  | _ => []

mutual
/-- Structural size of a `JsValue`, the termination measure of the schema
translator. -/
def jsize : JsValue → Nat
  | .absent => 1
  | .null => 1
  | .bool _ => 1
  | .num _ => 1
  | .str _ => 1
  | .arr xs => 2 + jsizeL xs
  | .obj fs => 2 + jsizeF fs

def jsizeL : List JsValue → Nat
  | [] => 0
  | x :: xs => jsize x + jsizeL xs

def jsizeF : List (String × JsValue) → Nat
  | [] => 0
  | (_, v) :: fs => jsize v + jsizeF fs
end

theorem jsize_pos (v : JsValue) : 1 ≤ jsize v := by
  cases v <;> simp [jsize] <;> omega

theorem jsize_le_jsizeL_of_mem {x : JsValue} {xs : List JsValue} (h : x ∈ xs) :
    jsize x ≤ jsizeL xs := by
  induction xs with
  | nil => cases h
  | cons y ys ih =>
    rcases List.mem_cons.mp h with rfl | h
    · simp [jsizeL]
    · have := ih h
      simp [jsizeL]
      omega

theorem jsize_le_jsizeF_of_mem {k : String} {v : JsValue}
    {fs : List (String × JsValue)} (h : (k, v) ∈ fs) : jsize v ≤ jsizeF fs := by
  induction fs with
  | nil => cases h
  | cons p ps ih =>
    rcases List.mem_cons.mp h with rfl | h
    · simp [jsizeF]
    · have := ih h
      cases p with
      | mk k2 v2 => simp [jsizeF]; omega

theorem jsize_lookup_le {k : String} {v : JsValue} {fs : List (String × JsValue)}
    (h : List.lookup k fs = some v) : jsize v ≤ jsizeF fs := by
  induction fs with
  | nil => simp [List.lookup] at h
  | cons p ps ih =>
    cases p with
    | mk k2 v2 =>
      cases hbeq : (k == k2) with
      | true =>
        simp [List.lookup, hbeq] at h
        subst h
        simp [jsizeF]
      | false =>
        simp [List.lookup, hbeq] at h
        have := ih h
        simp [jsizeF]
        omega

theorem getField_absent_or_lt (v : JsValue) (k : String) :
    getField v k = .absent ∨ jsize (getField v k) < jsize v := by
  cases v with
  | obj fs =>
    cases h : List.lookup k fs with
    | none =>
      left
      simp [getField, lookupD, h]
    | some w =>
      right
      have := jsize_lookup_le h
      simp [getField, lookupD, h, jsize]
      omega
  | absent => exact Or.inl rfl
  | null => exact Or.inl rfl
  | bool b => exact Or.inl rfl
  | num q => exact Or.inl rfl
  | str s => exact Or.inl rfl
  | arr xs => exact Or.inl rfl

theorem isSchemaNode_absent : isSchemaNode .absent = false := rfl

theorem jsize_getField_lt_of_node {v : JsValue} {k : String}
    (h : isSchemaNode (getField v k) = true) : jsize (getField v k) < jsize v := by
  rcases getField_absent_or_lt v k with heq | hlt
  · rw [heq] at h; simp [isSchemaNode, truthy] at h
  · exact hlt

theorem snd_mem_of_mem_enumFrom {p : Nat × JsValue} {n : Nat} {xs : List JsValue}
    (h : p ∈ List.enumFrom n xs) : p.2 ∈ xs := by
  induction xs generalizing n with
  | nil => simp [List.enumFrom] at h
  | cons y ys ih =>
    simp only [List.enumFrom, List.mem_cons] at h
    rcases h with rfl | h
    · simp
    · exact List.mem_cons.mpr (Or.inr (ih h))

theorem jsize_lt_of_mem_jsEntries {k : String} {v w : JsValue}
    (h : (k, v) ∈ jsEntries w) : jsize v < jsize w := by
  cases w with
  | obj fs =>
    simp only [jsEntries] at h
    have := jsize_le_jsizeF_of_mem h
    simp [jsize]
    omega
  | arr xs =>
    simp only [jsEntries, List.mem_map] at h
    obtain ⟨p, hp, hpe⟩ := h
    have hv : v ∈ xs := by
      have hmem := snd_mem_of_mem_enumFrom (n := 0) (by simpa [List.enum] using hp)
      have h2 : p.2 = v := congrArg Prod.snd hpe
      rwa [h2] at hmem
    have := jsize_le_jsizeL_of_mem hv
    simp [jsize]
    omega
  | absent => cases h
  | null => cases h
  | bool b => cases h
  | num q => cases h
  | str s => cases h

theorem jsize_headD_lt {xs : List JsValue} : jsize (xs.headD .absent) < 2 + jsizeL xs := by
  cases xs with
  | nil => simp [jsize, jsizeL]
  | cons y ys =>
    have : jsize y ≤ jsizeL (y :: ys) := jsize_le_jsizeL_of_mem (List.mem_cons_self y ys)
    simp at this ⊢
    omega

theorem jsizeL_filter_le (p : JsValue → Bool) (xs : List JsValue) :
    jsizeL (xs.filter p) ≤ jsizeL xs := by
  induction xs with
  | nil => simp
  | cons y ys ih =>
    by_cases h : p y
    · simp [List.filter, h, jsizeL]
      omega
    · simp [List.filter, h]
      have := jsize_pos y
      simp [jsizeL]
      omega

/-- A zod validator tree, as produced by translating schemas in
`parent.js`: `any` is `z.any()`, `venum` is `z.enum(values)`, `vint` is
`z.number().int()`, `vobject` is `z.object(shape)` (default strip mode),
`vrecord` is `z.record(z.any())`, and `nullable`/`optional` are the
corresponding zod wrappers. -/
inductive Validator where
  | any : Validator
  | vstring : Validator
  | venum (vals : List JsValue) : Validator
  | vnumber : Validator
  | vint : Validator
  | vbool : Validator
  | varray (elem : Validator) : Validator
  | vobject (shape : List (String × Validator)) : Validator
  | vrecord : Validator
  | vnull : Validator
  | nullable (inner : Validator) : Validator
  | optional (inner : Validator) : Validator

mutual
/-- zod parse: `none` is a validation failure, `some r` is success with the
parsed value `r` (for `z.object` the parsed value strips keys that are not
in the shape, which is how callers receive coerced arguments). -/
def validate (vd : Validator) (v : JsValue) : Option JsValue :=
  match vd, v with
  | .any, v => some v
  | .vstring, .str s => some (.str s)
  | .vstring, _ => none
  | .venum vals, .str s => if strMember vals s then some (.str s) else none
  | .venum _, _ => none
  | .vnumber, .num q => some (.num q)
  | .vnumber, _ => none
  | .vint, .num q => if q.den = 1 then some (.num q) else none
  | .vint, _ => none
  | .vbool, .bool b => some (.bool b)
  | .vbool, _ => none
  | .varray e, .arr xs => (validateList e xs).map .arr
  | .varray _, _ => none
  | .vobject sh, .obj fs => (validateFields fs sh).map .obj
  | .vobject _, _ => none
  | .vrecord, .obj fs => some (.obj fs)
  | .vrecord, _ => none
  | .vnull, .null => some .null
  | .vnull, _ => none
  | .nullable _, .null => some .null
  | .nullable w, v => validate w v
  | .optional _, .absent => some .absent
  | .optional w, v => validate w v
termination_by (2 * sizeOf vd, 0)

/-- Element-wise validation of a JS array against the element validator. -/
def validateList (e : Validator) (xs : List JsValue) : Option (List JsValue) :=
  match xs with
  | [] => some []
  | x :: rest =>
    match validate e x, validateList e rest with
    | some r, some rs => some (r :: rs)
    | _, _ => none
termination_by (2 * sizeOf e + 1, sizeOf xs)

/-- zod object parse in strip mode: each shape key is validated against the
looked-up property (`undefined` when absent); on success the output keeps
the shape keys whose parsed value is not `undefined`, dropping unknown
keys. -/
def validateFields (fs : List (String × JsValue)) (sh : List (String × Validator)) :
    Option (List (String × JsValue)) :=
  match sh with
  | [] => some []
  | (k, vd) :: rest =>
    match validate vd (lookupD fs k), validateFields fs rest with
    | some r, some tail => some (if isAbsentVal r then tail else (k, r) :: tail)
    | _, _ => none
termination_by (2 * sizeOf sh + 1, 0)
end

/-- The enum branch of the `'string'` case of `jsonSchemaPropertyToZod`:
`z.string()` is replaced by `z.enum(propertySchema.enum)` when
`propertySchema.enum && Array.isArray(propertySchema.enum)` (arrays,
including the empty array, are truthy; non-array enum values fail the
`Array.isArray` test). -/
def stringBase (ps : JsValue) : Validator :=
  match getField ps "enum" with
  | .arr l => .venum l
  | _ => .vstring

/-- The trailing nullable wrap of `jsonSchemaPropertyToZod`:
`if (ps.type !== 'null' && (ps.nullable === true || ...))`.  The second
disjunct `Array.isArray(ps.type) && ps.type.includes('null')` of the source
is unreachable here: an array-valued `type` always takes one of the two
early-return union branches, so only `ps.nullable === true` remains. -/
def wrapNullable (ps type : JsValue) (base : Validator) : Validator :=
  if !isNullStr type && isTrueVal (getField ps "nullable") then .nullable base else base

/-- The condition of the union branch of `jsonSchemaPropertyToZod`:
`type.includes('null')` and the non-null types number exactly one
(`includes`/the filter compare with strict equality against `'null'`). -/
def unionNullable (ts : List JsValue) : Bool :=
  ts.any isNullStr && (ts.filter (fun x => !isNullStr x)).length == 1

/-- `nonNullTypes[0]` of the union branch: the single element left after
filtering out `'null'`. -/
def unionPick (ts : List JsValue) : JsValue :=
  (ts.filter (fun x => !isNullStr x)).headD .absent

/-- The `switch (type)` of `jsonSchemaPropertyToZod` for a non-array `type`
value.  The recursively computed sub-results are passed in: `itemsVd` is
`jsonSchemaPropertyToZod(propertySchema.items)` (consumed only when the
kind is `array` and `items` is truthy) and `propsShape` is the translated
shape of `Object.entries(propertySchema.properties)` (consumed only when
the kind is `object` and `properties` is truthy).  A `type` that is neither
a recognized kind string nor an array falls to the `default:` arm,
`z.any()`. -/
def kindBase (ps : JsValue) (type : JsValue) (itemsVd : Validator)
    (propsShape : List (String × Validator)) : Validator :=
  match type with
  | .str s =>
    if s = "string" then stringBase ps
    else if s = "number" then .vnumber
    else if s = "integer" then .vint
    else if s = "boolean" then .vbool
    else if s = "array" then
      if truthy (getField ps "items") then .varray itemsVd else .varray .any
    else if s = "object" then
      if truthy (getField ps "properties") then .vobject propsShape else .vrecord
    else if s = "null" then .vnull
    else .any
  | _ => .any

theorem jsizeF_enumFrom_map (xs : List JsValue) (n : Nat) :
    jsizeF ((List.enumFrom n xs).map (fun p => (toString p.1, p.2))) = jsizeL xs := by
  induction xs generalizing n with
  | nil => simp [List.enumFrom, jsizeF, jsizeL]
  | cons y ys ih => simp [List.enumFrom, jsizeF, jsizeL, ih]

theorem jsizeF_jsEntries_succ_le (w : JsValue) : jsizeF (jsEntries w) + 1 ≤ jsize w := by
  cases w with
  | obj fs => simp [jsEntries, jsize]; omega
  | arr xs =>
    simp only [jsEntries, List.enum, jsize]
    rw [jsizeF_enumFrom_map]
    omega
  | absent => simp [jsEntries, jsizeF, jsize]
  | null => simp [jsEntries, jsizeF, jsize]
  | bool b => simp [jsEntries, jsizeF, jsize]
  | num q => simp [jsEntries, jsizeF, jsize]
  | str s => simp [jsEntries, jsizeF, jsize]

theorem truthy_getField_lt {ps : JsValue} {k : String}
    (h : truthy (getField ps k) = true) : jsize (getField ps k) < jsize ps := by
  rcases getField_absent_or_lt ps k with heq | hlt
  · rw [heq] at h; simp [truthy] at h
  · exact hlt

mutual
/-- The body of `jsonSchemaPropertyToZod` from src/parent.js, with the
`type` field passed as an explicit argument: the source's recursive calls on
`{...propertySchema, type: t}` keep every field of `propertySchema` except
`type`, which this formulation reflects by overriding only the `type`
argument.  Recursive calls on sub-schemas (`items`, property values) inline
the guard of `jsonSchemaPropertyToZod` (see `jsonSchemaPropertyToZod_sub`);
the translated `items` validator and `properties` shape are computed up
front (under the same truthiness guards as the source) and consumed by
`kindBase` only in the corresponding `switch` arms. -/
def translateWithType (ps : JsValue) (type : JsValue) : Validator :=
  if harr : type.isArr then
    -- Handle multiple types (array of types)
    if unionNullable type.arrItems then
      -- null alongside exactly one non-null type: recurse on it, nullable
      .nullable (translateWithType ps (unionPick type.arrItems))
    else
      -- multiple non-null types: simplified, just use first type
      translateWithType ps (type.arrItems.headD .absent)
  else
    wrapNullable ps type
      (kindBase ps type
        (if hitems : isSchemaNode (getField ps "items") then
          translateWithType (getField ps "items") (getField (getField ps "items") "type")
        else .any)
        (if hprops : truthy (getField ps "properties") then
          translateProps (jsEntries (getField ps "properties"))
        else []))
termination_by (jsize ps, jsize type)
decreasing_by
  · apply Prod.Lex.right
    cases type with
    | arr xs =>
      simp only [JsValue.arrItems, unionPick, jsize]
      have h1 := @jsize_headD_lt (xs.filter (fun x => !isNullStr x))
      have h2 := jsizeL_filter_le (fun x => !isNullStr x) xs
      omega
    | absent => simp [JsValue.isArr] at harr
    | null => simp [JsValue.isArr] at harr
    | bool b => simp [JsValue.isArr] at harr
    | num q => simp [JsValue.isArr] at harr
    | str s => simp [JsValue.isArr] at harr
    | obj fs => simp [JsValue.isArr] at harr
  · apply Prod.Lex.right
    cases type with
    | arr xs =>
      simp only [JsValue.arrItems, jsize]
      exact jsize_headD_lt
    | absent => simp [JsValue.isArr] at harr
    | null => simp [JsValue.isArr] at harr
    | bool b => simp [JsValue.isArr] at harr
    | num q => simp [JsValue.isArr] at harr
    | str s => simp [JsValue.isArr] at harr
    | obj fs => simp [JsValue.isArr] at harr
  · apply Prod.Lex.left
    exact jsize_getField_lt_of_node hitems
  · apply Prod.Lex.left
    have h1 := jsizeF_jsEntries_succ_le (getField ps "properties")
    have h2 := truthy_getField_lt hprops
    omega

/-- Translation of a `properties` entry list: for each `[key, value]` of
`Object.entries(propertySchema.properties)`, `shape[key] =
jsonSchemaPropertyToZod(value)` (the guard of `jsonSchemaPropertyToZod` is
inlined at the recursive call). -/
def translateProps : List (String × JsValue) → List (String × Validator)
  | [] => []
  | (k, v) :: rest =>
    (k, if hv : isSchemaNode v then translateWithType v (getField v "type") else .any) ::
      translateProps rest
termination_by l => (jsizeF l + 1, 0)
decreasing_by
  · apply Prod.Lex.left
    have := jsize_pos v
    simp [jsizeF]
    omega
  · apply Prod.Lex.left
    have := jsize_pos v
    simp [jsizeF]
    omega
end

/-- `jsonSchemaPropertyToZod(propertySchema)` from src/parent.js: absent or
non-object schemas produce `z.any()`; otherwise the body runs with
`type = propertySchema.type`. -/
def jsonSchemaPropertyToZod (ps : JsValue) : Validator :=
  if hn : isSchemaNode ps then translateWithType ps (getField ps "type") else .any

/-- The inlined recursive call sites inside `translateWithType` and
`translateProps` are exactly `jsonSchemaPropertyToZod` applied to the
sub-schema. -/
theorem jsonSchemaPropertyToZod_sub (w : JsValue) :
    (if isSchemaNode w then translateWithType w (getField w "type") else Validator.any) =
      jsonSchemaPropertyToZod w := by
  by_cases h : isSchemaNode w <;> simp [jsonSchemaPropertyToZod, h]

/-! One-step reduction lemmas for `translateWithType` and `translateProps`,
used to evaluate the translator without unbounded unfolding. -/

theorem translateWithType_arr (ps : JsValue) (ts : List JsValue) :
    translateWithType ps (.arr ts) =
      if unionNullable ts then
        .nullable (translateWithType ps (unionPick ts))
      else
        translateWithType ps (ts.headD .absent) := by
  rw [translateWithType.eq_def]
  simp [JsValue.isArr, JsValue.arrItems]

theorem translateWithType_string (ps : JsValue) :
    translateWithType ps (.str "string") = wrapNullable ps (.str "string") (stringBase ps) := by
  rw [translateWithType.eq_def]
  simp [JsValue.isArr, kindBase]

theorem translateWithType_number (ps : JsValue) :
    translateWithType ps (.str "number") = wrapNullable ps (.str "number") .vnumber := by
  rw [translateWithType.eq_def]
  simp [JsValue.isArr, kindBase]

theorem translateWithType_integer (ps : JsValue) :
    translateWithType ps (.str "integer") = wrapNullable ps (.str "integer") .vint := by
  rw [translateWithType.eq_def]
  simp [JsValue.isArr, kindBase]

theorem translateWithType_boolean (ps : JsValue) :
    translateWithType ps (.str "boolean") = wrapNullable ps (.str "boolean") .vbool := by
  rw [translateWithType.eq_def]
  simp [JsValue.isArr, kindBase]

theorem translateWithType_nullkind (ps : JsValue) :
    translateWithType ps (.str "null") = wrapNullable ps (.str "null") .vnull := by
  rw [translateWithType.eq_def]
  simp [JsValue.isArr, kindBase]

theorem translateWithType_array (ps : JsValue) :
    translateWithType ps (.str "array") =
      wrapNullable ps (.str "array")
        (if truthy (getField ps "items") then
          .varray (jsonSchemaPropertyToZod (getField ps "items"))
        else .varray .any) := by
  rw [translateWithType.eq_def]
  by_cases h : isSchemaNode (getField ps "items") <;>
    simp [JsValue.isArr, kindBase, h, jsonSchemaPropertyToZod, jsonSchemaPropertyToZod_sub]

theorem translateWithType_object (ps : JsValue) :
    translateWithType ps (.str "object") =
      wrapNullable ps (.str "object")
        (if truthy (getField ps "properties") then
          .vobject (translateProps (jsEntries (getField ps "properties")))
        else .vrecord) := by
  rw [translateWithType.eq_def]
  by_cases h : truthy (getField ps "properties") <;> simp [JsValue.isArr, kindBase, h]

theorem translateProps_eq (l : List (String × JsValue)) :
    translateProps l = l.map (fun kv => (kv.1, jsonSchemaPropertyToZod kv.2)) := by
  induction l with
  | nil => rw [translateProps.eq_def]; simp
  | cons p rest ih =>
    cases p with
    | mk k v =>
      rw [translateProps.eq_def]
      simp [ih, jsonSchemaPropertyToZod_sub]

theorem translate_node {ps : JsValue} (h : isSchemaNode ps = true) :
    jsonSchemaPropertyToZod ps = translateWithType ps (getField ps "type") := by
  simp [jsonSchemaPropertyToZod, h]

theorem translate_notNode {ps : JsValue} (h : isSchemaNode ps = false) :
    jsonSchemaPropertyToZod ps = .any := by
  simp [jsonSchemaPropertyToZod, h]

/-! Helper facts about `validate`. -/

theorem validate_any (v : JsValue) : validate .any v = some v := by
  simp [validate]

theorem validate_nullable_null (w : Validator) : validate (.nullable w) .null = some .null := by
  simp [validate]

theorem validate_null_result : ∀ (w : Validator) (r : JsValue),
    validate w .null = some r → r = .null
  | .any, r, h => by simp [validate] at h; exact h.symm
  | .vstring, r, h => by simp [validate] at h
  | .venum vals, r, h => by simp [validate] at h
  | .vnumber, r, h => by simp [validate] at h
  | .vint, r, h => by simp [validate] at h
  | .vbool, r, h => by simp [validate] at h
  | .varray e, r, h => by simp [validate] at h
  | .vobject sh, r, h => by simp [validate] at h
  | .vrecord, r, h => by simp [validate] at h
  | .vnull, r, h => by simp [validate] at h; exact h.symm
  | .nullable w, r, h => by simp [validate] at h; exact h.symm
  | .optional w, r, h => by
      have h2 : validate w .null = some r := by simpa [validate] using h
      exact validate_null_result w r h2

theorem validate_nullable_some {w : Validator} {v r : JsValue}
    (h : validate w v = some r) : validate (.nullable w) v = some r := by
  cases v with
  | null =>
    have := validate_null_result w r h
    subst this
    simp [validate]
  | absent => simpa [validate] using h
  | bool b => simpa [validate] using h
  | num q => simpa [validate] using h
  | str s => simpa [validate] using h
  | arr xs => simpa [validate] using h
  | obj fs => simpa [validate] using h

/-! The top-level schema conversion `jsonSchemaToZodSchema` and the
registry/dispatch model of `main` in src/parent.js. -/

/-- `x === 'object'` for a JS value `x`. -/
def isObjectStr : JsValue → Bool
  | .str s => s == "object"
  | _ => false

/-- The two possible results of `jsonSchemaToZodSchema`: the passthrough
schema `z.record(z.any())`, or a zod raw shape (mapping of property name to
property validator) to be wrapped into `z.object` by `registerTool`. -/
inductive TopSchema where
  | record : TopSchema
  | shape (sh : List (String × Validator)) : TopSchema

/-- `required.includes(key)` on `required = jsonSchema.required || []`:
strict-equality membership when `required` is an array.  A truthy non-array
`required` (JS substring semantics for strings, a TypeError for other
values) is outside the modelled schema space; every schema considered here
carries an absent, falsy or array-valued `required`. -/
def requiredContains (required : JsValue) (key : String) : Bool :=
  match required with
  | .arr l => strMember l key
  | _ => false

/-- `jsonSchemaToZodSchema(jsonSchema)` from src/parent.js: non-truthy
inputs and inputs whose `type` is not `'object'` give the passthrough
schema; otherwise each entry of `properties || {}` is translated with
`jsonSchemaPropertyToZod` and wrapped `.optional()` unless its key is in
`required || []`; an empty shape again gives the passthrough schema. -/
def jsonSchemaToZodSchema (js : JsValue) : TopSchema :=
  if !truthy js || !isObjectStr (getField js "type") then
    .record
  else
    let properties := if truthy (getField js "properties") then getField js "properties" else .obj []
    let required := if truthy (getField js "required") then getField js "required" else .arr []
    let shape := (jsEntries properties).map (fun kv =>
      let z := jsonSchemaPropertyToZod kv.2
      (kv.1, if requiredContains required kv.1 then z else .optional z))
    if shape.isEmpty then .record else .shape shape

/-- Modelled from the spec: the gateway endpoint (MCP SDK `registerTool`,
which is not part of src/) turns the registered input schema into the
argument validator — a raw shape becomes an object validator, and the
passthrough result is the open "accept any mapping" validator (spec 4.1
step 5 and the catalog surface of spec 6). -/
def topValidator : TopSchema → Validator
  | .record => .vrecord
  | .shape sh => .vobject sh

/-- Validation/coercion of caller-supplied arguments against a tool's
translated input schema, as performed before dispatch. -/
def gatewayValidate (schema v : JsValue) : Option JsValue :=
  validate (topValidator (jsonSchemaToZodSchema schema)) v

/-- One tool descriptor as returned by an upstream `listTools()`. -/
structure ToolDecl where
  name : String
  description : Option String
  inputSchema : JsValue

/-- A proxy entry of the aggregated catalog: translated validator plus the
id of the owning upstream client (the `client` closed over by the proxy
handler in src/parent.js). -/
structure RegEntry where
  description : String
  validator : Validator
  owner : String

/-- A startup failure: connecting to (or discovering from) the named child
failed, which rejects `main` before the gateway starts serving. -/
inductive StartupError where
  | connectionFailure (childId : String) : StartupError

/-- Modelled from the spec: `server.registerTool` (MCP SDK, not part of
src/) records the proxy entry in the name-keyed catalog, overwriting any
prior entry with the same name (spec 4.3; last-write-wins invariant of
spec 3). -/
def registerToolEntry (reg : List (String × RegEntry)) (name : String) (e : RegEntry) :
    List (String × RegEntry) :=
  (name, e) :: reg.filter (fun p => !(p.1 == name))

/-- Registration of one upstream's discovered tools, in listed order: each
tool's schema is translated (`jsonSchemaToZodSchema(tool.inputSchema)`),
and the proxy entry records `tool.description ?? ''` and the owning
client's id. -/
def registerUpstreamTools (owner : String) (tools : List ToolDecl)
    (reg : List (String × RegEntry)) : List (String × RegEntry) :=
  tools.foldl (fun r t =>
    registerToolEntry r t.name
      ⟨t.description.getD "", topValidator (jsonSchemaToZodSchema t.inputSchema), owner⟩) reg

/-- The discovery loop of `main` in src/parent.js over the configured
children, in configured order.  Each child is given as its id together with
`some tools` (successful connect and listTools) or `none` (connection or
discovery failure: in the source a rejected `await` that aborts `main`
before the HTTP server begins listening, so no catalog is served). -/
def buildRegistryAux (acc : List (String × RegEntry)) :
    List (String × Option (List ToolDecl)) → Except StartupError (List (String × RegEntry))
  | [] => .ok acc
  | (childId, none) :: _ => .error (.connectionFailure childId)
  | (childId, some tools) :: rest =>
    buildRegistryAux (registerUpstreamTools childId tools acc) rest

/-- Registry construction over the configured children (spec 4.3 `build`). -/
def buildRegistry (children : List (String × Option (List ToolDecl))) :
    Except StartupError (List (String × RegEntry)) :=
  buildRegistryAux [] children

/-- Per-call dispatch failures (spec 4.4). -/
inductive DispatchError where
  | unknownTool : DispatchError
  | validationError : DispatchError

/-- `args ?? {}` in the proxy handler of src/parent.js: nullish coalescing
replaces `undefined` and `null` by the empty object mapping. -/
def coalesceArgs : JsValue → JsValue
  | .absent => .obj []
  | .null => .obj []
  | v => v

/-- Modelled from the spec: the dispatch path of spec 4.4 around the proxy
handler of src/parent.js.  The transport/SDK glue (tool lookup and argument
validation against the registered schema) is not part of src/; per spec 4.4
the dispatcher looks the entry up (UnknownTool when absent),
validates/coerces the raw arguments with the stored validator
(ValidationError on failure, carrying no partial result) and then runs the
proxy handler from src/parent.js, which forwards `args ?? {}` to the owning
client for this tool name and returns the upstream result payload
unmodified. -/
def dispatch (reg : List (String × RegEntry))
    (invoke : String → String → JsValue → JsValue)
    (toolName : String) (raw : JsValue) : Except DispatchError JsValue :=
  match List.lookup toolName reg with
  | none => .error .unknownTool
  | some e =>
    match validate e.validator raw with
    | none => .error .validationError
    | some coerced => .ok (invoke e.owner toolName (coalesceArgs coerced))

/-! Registry lemmas. -/

theorem lookup_filter_ne {reg : List (String × RegEntry)} {n m : String} (h : ¬n = m) :
    List.lookup n (reg.filter (fun p => !(p.1 == m))) = List.lookup n reg := by
  induction reg with
  | nil => simp
  | cons p rest ih =>
    cases p with
    | mk k e =>
      by_cases hk : k = m
      · subst hk
        have hne : (n == k) = false := by simpa using h
        simp [List.filter, List.lookup, hne, ih]
      · have : (!(k == m)) = true := by simpa using hk
        by_cases hnk : n = k
        · subst hnk
          simp [List.filter, this, List.lookup]
        · have hne : (n == k) = false := by simpa using hnk
          simp [List.filter, this, List.lookup, hne, ih]

theorem lookup_registerToolEntry_self (reg : List (String × RegEntry)) (n : String)
    (e : RegEntry) : List.lookup n (registerToolEntry reg n e) = some e := by
  simp [registerToolEntry, List.lookup]

theorem lookup_registerToolEntry_ne {n m : String} (h : ¬n = m)
    (reg : List (String × RegEntry)) (e : RegEntry) :
    List.lookup n (registerToolEntry reg m e) = List.lookup n reg := by
  have hne : (n == m) = false := by simpa using h
  simp [registerToolEntry, List.lookup, hne, lookup_filter_ne h]

theorem lookup_registerUpstreamTools_notMem {n : String} {tools : List ToolDecl}
    (h : n ∉ tools.map ToolDecl.name) (owner : String) (acc : List (String × RegEntry)) :
    List.lookup n (registerUpstreamTools owner tools acc) = List.lookup n acc := by
  induction tools generalizing acc with
  | nil => simp [registerUpstreamTools]
  | cons t rest ih =>
    have hne : ¬n = t.name := by
      intro hc
      exact h (by simp [hc])
    have hrest : n ∉ rest.map ToolDecl.name := by
      intro hc
      exact h (by simp [hc])
    simp only [registerUpstreamTools, List.foldl] at *
    rw [ih hrest]
    exact lookup_registerToolEntry_ne hne acc _

theorem lookup_registerUpstreamTools_mem {n : String} {tools : List ToolDecl}
    (h : n ∈ tools.map ToolDecl.name) (owner : String) (acc : List (String × RegEntry)) :
    ∃ e : RegEntry, List.lookup n (registerUpstreamTools owner tools acc) = some e ∧
      e.owner = owner := by
  induction tools generalizing acc with
  | nil => simp at h
  | cons t rest ih =>
    by_cases hr : n ∈ rest.map ToolDecl.name
    · simpa only [registerUpstreamTools, List.foldl] using ih hr _
    · have hn : n = t.name := by
        rcases List.mem_map.mp h with ⟨u, hu, hun⟩
        rcases List.mem_cons.mp hu with rfl | hu2
        · exact hun.symm
        · exact absurd (List.mem_map.mpr ⟨u, hu2, hun⟩) hr
      subst hn
      refine ⟨⟨t.description.getD "", topValidator (jsonSchemaToZodSchema t.inputSchema), owner⟩, ?_, rfl⟩
      simp only [registerUpstreamTools, List.foldl]
      have := lookup_registerUpstreamTools_notMem hr owner
        (registerToolEntry acc t.name
          ⟨t.description.getD "", topValidator (jsonSchemaToZodSchema t.inputSchema), owner⟩)
      simp only [registerUpstreamTools] at this
      rw [this]
      exact lookup_registerToolEntry_self acc t.name _

theorem buildRegistryAux_error {children : List (String × Option (List ToolDecl))}
    {childId : String} (h : (childId, (none : Option (List ToolDecl))) ∈ children)
    (acc : List (String × RegEntry)) :
    ∃ e, buildRegistryAux acc children = .error e := by
  induction children generalizing acc with
  | nil => simp at h
  | cons c rest ih =>
    cases c with
    | mk i res =>
      cases res with
      | none => exact ⟨.connectionFailure i, rfl⟩
      | some ts =>
        rcases List.mem_cons.mp h with heq | hmem
        · cases heq
        · exact ih hmem _

/-- `x === 'string'` for a JS value `x`. -/
def isStringStr : JsValue → Bool
  | .str s => s == "string"
  | _ => false

theorem translateWithType_nonarr (ps type : JsValue) (h : type.isArr = false) :
    translateWithType ps type =
      wrapNullable ps type
        (kindBase ps type
          (if isSchemaNode (getField ps "items") then
            translateWithType (getField ps "items") (getField (getField ps "items") "type")
          else .any)
          (if truthy (getField ps "properties") then
            translateProps (jsEntries (getField ps "properties"))
          else [])) := by
  rw [translateWithType.eq_def]
  simp [h]

theorem kindBase_congr (ps1 ps0 type : JsValue) (i : Validator)
    (p : List (String × Validator))
    (hsb : stringBase ps1 = stringBase ps0)
    (hit : getField ps1 "items" = getField ps0 "items")
    (hpr : getField ps1 "properties" = getField ps0 "properties") :
    kindBase ps1 type i p = kindBase ps0 type i p := by
  cases type <;> simp [kindBase, hsb, hit, hpr]

theorem kindBase_congr_nonstring (ps1 ps0 type : JsValue) (i : Validator)
    (p : List (String × Validator))
    (hs : isStringStr type = false)
    (hit : getField ps1 "items" = getField ps0 "items")
    (hpr : getField ps1 "properties" = getField ps0 "properties") :
    kindBase ps1 type i p = kindBase ps0 type i p := by
  cases type with
  | str s =>
    have hne : ¬s = "string" := by simpa [isStringStr] using hs
    simp [kindBase, hne, hit, hpr]
  | absent => simp [kindBase]
  | null => simp [kindBase]
  | bool b => simp [kindBase]
  | num q => simp [kindBase]
  | arr xs => simp [kindBase]
  | obj fs => simp [kindBase]

theorem strMember_iff (l : List JsValue) (s : String) :
    strMember l s = true ↔ JsValue.str s ∈ l := by
  induction l with
  | nil => simp [strMember]
  | cons e rest ih =>
    simp only [strMember, List.any_cons, Bool.or_eq_true, List.mem_cons] at *
    constructor
    · rintro (h1 | h2)
      · left
        cases e <;> simp at h1
        simp [h1]
      · right
        exact ih.mp h2
    · rintro (h1 | h2)
      · left
        rw [← h1]
        simp
      · right
        exact ih.mpr h2

theorem validateFields_isSome_iff (fs : List (String × JsValue)) :
    ∀ sh : List (String × Validator),
      (validateFields fs sh).isSome = true ↔
        ∀ p ∈ sh, (validate p.2 (lookupD fs p.1)).isSome = true
  | [] => by simp [validateFields]
  | (k, vd) :: rest => by
    have ih := validateFields_isSome_iff fs rest
    constructor
    · intro hx
      cases h1 : validate vd (lookupD fs k) with
      | none =>
        rw [show validateFields fs ((k, vd) :: rest) = none from by
          simp [validateFields, h1]] at hx
        simp at hx
      | some r =>
        cases h2 : validateFields fs rest with
        | none =>
          rw [show validateFields fs ((k, vd) :: rest) = none from by
            simp [validateFields, h1, h2]] at hx
          simp at hx
        | some tail =>
          exact List.forall_mem_cons.mpr ⟨by simp [h1], ih.mp (by simp [h2])⟩
    · intro hall
      obtain ⟨hhead, hrest⟩ := List.forall_mem_cons.mp hall
      obtain ⟨r, h1⟩ := Option.isSome_iff_exists.mp hhead
      obtain ⟨tail, h2⟩ := Option.isSome_iff_exists.mp (ih.mpr hrest)
      simp [validateFields, h1, h2]

/-! The claims. -/

/-- Claim C1: schema translation is total — for every `InterfaceSchema`
input (any `JsValue`, including absent, malformed, empty or deeply nested
values), `jsonSchemaPropertyToZod` returns a `Validator` and never fails;
for absent or non-object inputs it degrades to the unconstrained
accept-anything validator, which accepts every value unchanged. -/
theorem C1_translation_total (s : JsValue) :
    ∃ vd : Validator, jsonSchemaPropertyToZod s = vd ∧
      (isSchemaNode s = false →
        vd = .any ∧ ∀ v : JsValue, validate vd v = some v) := by
  refine ⟨jsonSchemaPropertyToZod s, rfl, ?_⟩
  intro h
  rw [translate_notNode h]
  exact ⟨rfl, validate_any⟩

/-- Witness for C1, at a malformed (non-object) schema input. -/
theorem C1_witness :
    ∃ vd : Validator, jsonSchemaPropertyToZod (.str "garbage") = vd ∧
      (isSchemaNode (.str "garbage") = false →
        vd = .any ∧ ∀ v : JsValue, validate vd v = some v) :=
  C1_translation_total (.str "garbage")

/-- Claim C2: when two configured upstreams each advertise a tool with the
same name, registry build completes (no error) and the final catalog entry
for that name routes to the upstream discovered last in configured order —
last-write-wins overwrite. -/
theorem C2_last_write_wins (idA idB : String) (ta tb : List ToolDecl) (n : String)
    (hA : n ∈ ta.map ToolDecl.name) (hB : n ∈ tb.map ToolDecl.name) :
    ∃ (reg : List (String × RegEntry)) (e : RegEntry),
      buildRegistry [(idA, some ta), (idB, some tb)] = .ok reg ∧
      List.lookup n reg = some e ∧ e.owner = idB := by
  obtain ⟨e, he, ho⟩ :=
    lookup_registerUpstreamTools_mem hB idB (registerUpstreamTools idA ta [])
  exact ⟨registerUpstreamTools idB tb (registerUpstreamTools idA ta []), e, rfl, he, ho⟩

/-- Witness for C2: children A and B both advertise "ping"; build succeeds
and the final "ping" entry is owned by B. -/
theorem C2_witness :
    ∃ (reg : List (String × RegEntry)) (e : RegEntry),
      buildRegistry [("mcp-child-a-http", some [⟨"ping", none, .absent⟩]),
          ("mcp-child-b-http", some [⟨"ping", some "pong", .absent⟩])] = .ok reg ∧
      List.lookup "ping" reg = some e ∧ e.owner = "mcp-child-b-http" :=
  C2_last_write_wins "mcp-child-a-http" "mcp-child-b-http"
    [⟨"ping", none, .absent⟩] [⟨"ping", some "pong", .absent⟩] "ping"
    (by simp) (by simp)

/-- Claim C5: if any configured upstream cannot be connected to or fails
discovery, registry build fails with a startup error, and no catalog
results — in particular the build never returns a partial catalog of the
upstreams discovered earlier. -/
theorem C5_startup_fatal (children : List (String × Option (List ToolDecl)))
    (childId : String) (h : (childId, (none : Option (List ToolDecl))) ∈ children) :
    (∃ e, buildRegistry children = .error e) ∧
    ∀ reg : List (String × RegEntry), buildRegistry children ≠ .ok reg := by
  obtain ⟨e, he⟩ := buildRegistryAux_error h []
  refine ⟨⟨e, by simpa [buildRegistry] using he⟩, ?_⟩
  intro reg hok
  rw [show buildRegistry children = buildRegistryAux [] children from rfl, he] at hok
  cases hok

/-- Witness for C5: child B is unreachable; build errors and produces no
catalog (not even one containing only child A's tools). -/
theorem C5_witness :
    (∃ e, buildRegistry [("mcp-child-a-http", some [⟨"joke", none, .absent⟩]),
        ("mcp-child-b-http", none)] = .error e) ∧
    ∀ reg : List (String × RegEntry),
      buildRegistry [("mcp-child-a-http", some [⟨"joke", none, .absent⟩]),
        ("mcp-child-b-http", none)] ≠ .ok reg :=
  C5_startup_fatal _ "mcp-child-b-http" (by simp)

/-- Claim C10: the proxy handler forwards `args ?? {}`: an absent
(undefined or null) argument value is replaced by the empty object mapping,
and the forwarded value is never undefined or null. -/
theorem C10_absent_args (a : JsValue) (h : a = .absent ∨ a = .null) :
    coalesceArgs a = .obj [] ∧
    ∀ b : JsValue, coalesceArgs b ≠ .absent ∧ coalesceArgs b ≠ .null := by
  constructor
  · rcases h with rfl | rfl <;> rfl
  · intro b
    cases b <;> simp [coalesceArgs]

/-- Witness for C10 at `undefined` arguments. -/
theorem C10_witness :
    coalesceArgs .absent = .obj [] ∧
    ∀ b : JsValue, coalesceArgs b ≠ .absent ∧ coalesceArgs b ≠ .null :=
  C10_absent_args .absent (Or.inl rfl)

/-- Claim C4: for a schema node whose `type` is an ordered set (array) of
kinds: when it includes 'null' alongside exactly one non-null kind
(`unionNullable`), the translator yields that non-null kind's validator —
the body applied to the schema with only that kind, which is the source's
recursion on `{...schema, type: nonNullTypes[0]}` — marked nullable, so it
accepts null and everything the unwrapped validator accepts; otherwise it
yields the validator of only the first listed kind, ignoring the remaining
kinds. -/
theorem C4_union_kinds (ps : JsValue) (ts : List JsValue)
    (hnode : isSchemaNode ps = true) (htype : getField ps "type" = .arr ts) :
    ((unionNullable ts = true) →
      jsonSchemaPropertyToZod ps = .nullable (translateWithType ps (unionPick ts)) ∧
      validate (jsonSchemaPropertyToZod ps) .null = some .null ∧
      ∀ v r : JsValue, validate (translateWithType ps (unionPick ts)) v = some r →
        validate (jsonSchemaPropertyToZod ps) v = some r) ∧
    ((unionNullable ts = false) →
      jsonSchemaPropertyToZod ps = translateWithType ps (ts.headD .absent)) := by
  constructor
  · intro h
    have he : jsonSchemaPropertyToZod ps = .nullable (translateWithType ps (unionPick ts)) := by
      rw [translate_node hnode, htype, translateWithType_arr, if_pos h]
    refine ⟨he, ?_, ?_⟩
    · rw [he]
      exact validate_nullable_null _
    · intro v r hv
      rw [he]
      exact validate_nullable_some hv
  · intro h
    rw [translate_node hnode, htype, translateWithType_arr, if_neg (by simp [h])]

/-- Witness for C4: `{type: ["string", "null"]}` translates to a nullable
string validator, which accepts null. -/
theorem C4_witness :
    validate (jsonSchemaPropertyToZod (.obj [("type", .arr [.str "string", .str "null"])]))
      .null = some .null :=
  ((C4_union_kinds (.obj [("type", .arr [.str "string", .str "null"])])
      [.str "string", .str "null"]
      (by simp [isSchemaNode, truthy, isTypeofObject])
      (by simp [getField, lookupD, List.lookup])).1
    (by simp [unionNullable, isNullStr])).2.1

/-- Claim C8: a schema with `nullable: true` whose kind is not 'null' (and
is a single kind, not a kind array) accepts null in addition to every value
its unwrapped translation accepts; a plain string schema without
`nullable: true` rejects null. -/
theorem C8_nullable (t : JsValue) (hnull : isNullStr t = false) (harr : t.isArr = false) :
    validate (jsonSchemaPropertyToZod (.obj [("type", t), ("nullable", .bool true)]))
        .null = some .null ∧
    (∀ v r : JsValue,
      validate (jsonSchemaPropertyToZod (.obj [("type", t)])) v = some r →
      validate (jsonSchemaPropertyToZod (.obj [("type", t), ("nullable", .bool true)]))
        v = some r) ∧
    validate (jsonSchemaPropertyToZod (.obj [("type", .str "string")])) .null = none := by
  have hglue :
      jsonSchemaPropertyToZod (.obj [("type", t), ("nullable", .bool true)]) =
        .nullable (jsonSchemaPropertyToZod (.obj [("type", t)])) := by
    rw [@translate_node (.obj [("type", t), ("nullable", .bool true)])
          (by simp [isSchemaNode, truthy, isTypeofObject]),
        @translate_node (.obj [("type", t)])
          (by simp [isSchemaNode, truthy, isTypeofObject])]
    rw [show getField (.obj [("type", t), ("nullable", .bool true)]) "type" = t from by
          simp [getField, lookupD, List.lookup],
        show getField (.obj [("type", t)]) "type" = t from by
          simp [getField, lookupD, List.lookup]]
    rw [translateWithType_nonarr _ t harr, translateWithType_nonarr _ t harr]
    rw [kindBase_congr (.obj [("type", t), ("nullable", .bool true)]) (.obj [("type", t)]) t _ _
          (by simp [stringBase, getField, lookupD, List.lookup])
          (by simp [getField, lookupD, List.lookup])
          (by simp [getField, lookupD, List.lookup])]
    simp [wrapNullable, hnull, isTrueVal, getField, lookupD, List.lookup]
  refine ⟨?_, ?_, ?_⟩
  · rw [hglue]
    exact validate_nullable_null _
  · intro v r hv
    rw [hglue]
    exact validate_nullable_some hv
  · rw [translate_node (by simp [isSchemaNode, truthy, isTypeofObject])]
    rw [show getField (.obj [("type", JsValue.str "string")]) "type" = .str "string" from by
          simp [getField, lookupD, List.lookup]]
    rw [translateWithType_string]
    simp [wrapNullable, isNullStr, isTrueVal, getField, lookupD, List.lookup, stringBase, validate]

/-- Witness for C8 at the number kind: `{type: "number", nullable: true}`
accepts null. -/
theorem C8_witness :
    validate (jsonSchemaPropertyToZod
      (.obj [("type", .str "number"), ("nullable", .bool true)])) .null = some .null :=
  (C8_nullable (.str "number") (by simp [isNullStr]) rfl).1

/-- Claim C7: a string-kind schema with an `enum` list of string literals
accepts a value iff the value is a member of exactly that literal set
(membership-checked); a string-kind schema without an enum accepts every
string. -/
theorem C7_enum_membership (l : List JsValue)
    (hstr : ∀ e ∈ l, ∃ s : String, e = .str s) :
    (∀ v : JsValue,
      (validate (jsonSchemaPropertyToZod
          (.obj [("type", .str "string"), ("enum", .arr l)])) v).isSome = true ↔ v ∈ l) ∧
    (∀ s : String,
      validate (jsonSchemaPropertyToZod (.obj [("type", .str "string")])) (.str s) =
        some (.str s)) := by
  have htr : jsonSchemaPropertyToZod (.obj [("type", .str "string"), ("enum", .arr l)]) =
      .venum l := by
    rw [translate_node (by simp [isSchemaNode, truthy, isTypeofObject]),
        show getField (.obj [("type", JsValue.str "string"), ("enum", JsValue.arr l)]) "type" =
          .str "string" from by simp [getField, lookupD, List.lookup],
        translateWithType_string]
    simp [wrapNullable, isNullStr, isTrueVal, getField, lookupD, List.lookup, stringBase]
  have htr0 : jsonSchemaPropertyToZod (.obj [("type", .str "string")]) = .vstring := by
    rw [translate_node (by simp [isSchemaNode, truthy, isTypeofObject]),
        show getField (.obj [("type", JsValue.str "string")]) "type" = .str "string" from by
          simp [getField, lookupD, List.lookup],
        translateWithType_string]
    simp [wrapNullable, isNullStr, isTrueVal, getField, lookupD, List.lookup, stringBase]
  constructor
  · intro v
    rw [htr]
    constructor
    · intro hv
      cases v with
      | str s =>
        by_cases hm : strMember l s = true
        · exact (strMember_iff l s).mp hm
        · rw [show validate (.venum l) (.str s) = none from by
              simp [validate, hm]] at hv
          simp at hv
      | absent => simp [validate] at hv
      | null => simp [validate] at hv
      | bool b => simp [validate] at hv
      | num q => simp [validate] at hv
      | arr xs => simp [validate] at hv
      | obj fs => simp [validate] at hv
    · intro hv
      obtain ⟨s, rfl⟩ := hstr v hv
      simp [validate, (strMember_iff l s).mpr hv]
  · intro s
    rw [htr0]
    simp [validate]

/-- Witness for C7 with `enum = ["x", "y"]`: "x" validates, "z" does not,
and without an enum every string validates. -/
theorem C7_witness :
    ((validate (jsonSchemaPropertyToZod
        (.obj [("type", .str "string"), ("enum", .arr [.str "x", .str "y"])]))
        (.str "x")).isSome = true ↔ JsValue.str "x" ∈ [JsValue.str "x", JsValue.str "y"]) ∧
    ((validate (jsonSchemaPropertyToZod
        (.obj [("type", .str "string"), ("enum", .arr [.str "x", .str "y"])]))
        (.str "z")).isSome = true ↔ JsValue.str "z" ∈ [JsValue.str "x", JsValue.str "y"]) ∧
    validate (jsonSchemaPropertyToZod (.obj [("type", .str "string")])) (.str "z") =
      some (.str "z") := by
  have h := C7_enum_membership [.str "x", .str "y"]
    (by
      intro e he
      rcases List.mem_cons.mp he with rfl | he2
      · exact ⟨"x", rfl⟩
      · rcases List.mem_cons.mp he2 with rfl | he3
        · exact ⟨"y", rfl⟩
        · cases he3)
  exact ⟨h.1 (.str "x"), h.1 (.str "z"), h.2 "z"⟩

/-- Claim C9: an `enum` list on a schema whose kind is not 'string' is
silently ignored: translation yields the same validator with and without
the enum field, and in particular a number-kind schema with an enum accepts
every number, including values outside the listed set. -/
theorem C9_enum_ignored (t : JsValue) (l : List JsValue)
    (harr : t.isArr = false) (hs : isStringStr t = false) :
    jsonSchemaPropertyToZod (.obj [("type", t), ("enum", .arr l)]) =
      jsonSchemaPropertyToZod (.obj [("type", t)]) ∧
    ∀ q : Rat,
      validate (jsonSchemaPropertyToZod
        (.obj [("type", .str "number"), ("enum", .arr l)])) (.num q) = some (.num q) := by
  constructor
  · rw [@translate_node (.obj [("type", t), ("enum", .arr l)])
          (by simp [isSchemaNode, truthy, isTypeofObject]),
        @translate_node (.obj [("type", t)])
          (by simp [isSchemaNode, truthy, isTypeofObject]),
        show getField (.obj [("type", t), ("enum", .arr l)]) "type" = t from by
          simp [getField, lookupD, List.lookup],
        show getField (.obj [("type", t)]) "type" = t from by
          simp [getField, lookupD, List.lookup],
        translateWithType_nonarr _ t harr, translateWithType_nonarr _ t harr,
        kindBase_congr_nonstring (.obj [("type", t), ("enum", .arr l)]) (.obj [("type", t)]) t _ _
          hs
          (by simp [getField, lookupD, List.lookup])
          (by simp [getField, lookupD, List.lookup])]
    simp [wrapNullable, isTrueVal, getField, lookupD, List.lookup]
  · intro q
    rw [translate_node (by simp [isSchemaNode, truthy, isTypeofObject]),
        show getField (.obj [("type", JsValue.str "number"), ("enum", JsValue.arr l)]) "type" =
          .str "number" from by simp [getField, lookupD, List.lookup],
        translateWithType_number]
    simp [wrapNullable, isNullStr, isTrueVal, getField, lookupD, List.lookup, validate]

/-- Witness for C9 at the boolean kind: the enum list `[true]` is ignored
and `false` — outside the listed set — still validates. -/
theorem C9_witness :
    jsonSchemaPropertyToZod (.obj [("type", .str "boolean"), ("enum", .arr [.bool true])]) =
      jsonSchemaPropertyToZod (.obj [("type", .str "boolean")]) ∧
    validate (jsonSchemaPropertyToZod
      (.obj [("type", .str "number"), ("enum", .arr [.bool true])])) (.num 7) = some (.num 7) :=
  ⟨(C9_enum_ignored (.str "boolean") [.bool true] rfl (by simp [isStringStr])).1,
   (C9_enum_ignored (.str "boolean") [.bool true] rfl (by simp [isStringStr])).2 7⟩

theorem topValidator_result_obj {t : TopSchema} {raw c : JsValue}
    (h : validate (topValidator t) raw = some c) : ∃ gs, c = .obj gs := by
  cases t with
  | record =>
    cases raw with
    | obj fs =>
      simp [topValidator, validate] at h
      exact ⟨fs, h.symm⟩
    | absent => simp [topValidator, validate] at h
    | null => simp [topValidator, validate] at h
    | bool b => simp [topValidator, validate] at h
    | num q => simp [topValidator, validate] at h
    | str s => simp [topValidator, validate] at h
    | arr xs => simp [topValidator, validate] at h
  | shape sh =>
    cases raw with
    | obj fs =>
      simp [topValidator, validate] at h
      obtain ⟨a, ha, hc⟩ := h
      exact ⟨a, hc.symm⟩
    | absent => simp [topValidator, validate] at h
    | null => simp [topValidator, validate] at h
    | bool b => simp [topValidator, validate] at h
    | num q => simp [topValidator, validate] at h
    | str s => simp [topValidator, validate] at h
    | arr xs => simp [topValidator, validate] at h

/-- Claim C6: for every registered tool and argument value, dispatch
validates the raw arguments against the stored validator and, on success,
forwards the coerced (not raw) arguments to the owning upstream client's
invoke for that tool name, returning the upstream's result payload
unmodified (the gateway performs no reshaping of the result). -/
theorem C6_dispatch_forwards_coerced (reg : List (String × RegEntry))
    (invoke : String → String → JsValue → JsValue) (toolName : String)
    (raw : JsValue) (e : RegEntry) (s c : JsValue)
    (hlook : List.lookup toolName reg = some e)
    (hv : e.validator = topValidator (jsonSchemaToZodSchema s))
    (hc : validate e.validator raw = some c) :
    dispatch reg invoke toolName raw = .ok (invoke e.owner toolName c) := by
  obtain ⟨gs, rfl⟩ :=
    topValidator_result_obj (t := jsonSchemaToZodSchema s) (by rwa [hv] at hc)
  simp [dispatch, hlook, hc, coalesceArgs]

/-- Witness for C6: dispatching "name-age" with raw arguments
`{a: "sam", junk: 5}` against a schema requiring the string property "a"
forwards the coerced arguments `{a: "sam"}` (the unknown key is stripped,
so the forwarded value differs from the raw one) to the owning client and
returns that client's payload unchanged. -/
theorem C6_witness :
    dispatch
      [("name-age", ⟨"", topValidator (jsonSchemaToZodSchema
          (.obj [("type", .str "object"),
                 ("properties", .obj [("a", .obj [("type", .str "string")])]),
                 ("required", .arr [.str "a"])])), "mcp-child-b-http"⟩)]
      (fun owner name args => .obj [("owner", .str owner), ("tool", .str name), ("args", args)])
      "name-age" (.obj [("a", .str "sam"), ("junk", .num 5)]) =
    .ok (.obj [("owner", .str "mcp-child-b-http"), ("tool", .str "name-age"),
               ("args", .obj [("a", .str "sam")])]) := by
  have h := C6_dispatch_forwards_coerced
    [("name-age", ⟨"", topValidator (jsonSchemaToZodSchema
        (.obj [("type", .str "object"),
               ("properties", .obj [("a", .obj [("type", .str "string")])]),
               ("required", .arr [.str "a"])])), "mcp-child-b-http"⟩)]
    (fun owner name args => .obj [("owner", .str owner), ("tool", .str name), ("args", args)])
    "name-age" (.obj [("a", .str "sam"), ("junk", .num 5)])
    ⟨"", topValidator (jsonSchemaToZodSchema
        (.obj [("type", .str "object"),
               ("properties", .obj [("a", .obj [("type", .str "string")])]),
               ("required", .arr [.str "a"])])), "mcp-child-b-http"⟩
    (.obj [("type", .str "object"),
           ("properties", .obj [("a", .obj [("type", .str "string")])]),
           ("required", .arr [.str "a"])])
    (.obj [("a", .str "sam")])
    (by simp [List.lookup])
    rfl
    (by
      rw [show jsonSchemaToZodSchema
            (.obj [("type", .str "object"),
                   ("properties", .obj [("a", .obj [("type", .str "string")])]),
                   ("required", .arr [.str "a"])]) =
          .shape [("a", jsonSchemaPropertyToZod (.obj [("type", .str "string")]))] from by
        simp [jsonSchemaToZodSchema, getField, lookupD, List.lookup, truthy, isObjectStr,
              jsEntries, requiredContains, strMember]]
      rw [show jsonSchemaPropertyToZod (.obj [("type", JsValue.str "string")]) = .vstring from by
        rw [translate_node (by simp [isSchemaNode, truthy, isTypeofObject]),
            show getField (.obj [("type", JsValue.str "string")]) "type" = .str "string" from by
              simp [getField, lookupD, List.lookup],
            translateWithType_string]
        simp [wrapNullable, isNullStr, isTrueVal, getField, lookupD, List.lookup, stringBase]]
      simp [topValidator, validate, validateFields, lookupD, List.lookup, isAbsentVal])
  exact h

/-- A nested object schema whose `required` list is empty: property "b" of
this inner object is declared but not required. -/
def innerObjectSchema : JsValue :=
  .obj [("type", .str "object"),
        ("properties", .obj [("b", .obj [("type", .str "string")])]),
        ("required", .arr [])]

/-- A top-level object schema with one required property "inner" whose
schema is `innerObjectSchema`. -/
def nestedObjectSchema : JsValue :=
  .obj [("type", .str "object"),
        ("properties", .obj [("inner", innerObjectSchema)]),
        ("required", .arr [.str "inner"])]

/-- A top-level object schema declaring one property "a" with an empty
(kind-less) property schema, and listing "a" as required. -/
def anyKindRequiredSchema : JsValue :=
  .obj [("type", .str "object"),
        ("properties", .obj [("a", .obj [])]),
        ("required", .arr [.str "a"])]

/-- Counterexample to claim C3 as stated, in two parts.  First: "b" is not
in the inner object node's `required` set, yet the value `{inner: {}}` —
which merely omits the non-required nested property "b" — fails
validation, contradicting "a value missing a non-required property
validates ... at every object node, nested inside other schemas" (nested
object nodes are translated by `jsonSchemaPropertyToZod`, which never
consults `required` and never wraps a property in `.optional()`).  Second:
"a" IS in the top-level `required` set of `anyKindRequiredSchema`, yet the
empty value `{}` — which omits the required property "a" — validates,
contradicting "a value missing a required property fails validation": the
kind-less property schema translates to `z.any()`, which accepts the
undefined produced by the absent property, so `required` membership does
not by itself make absence fail. -/
theorem C3_counterexample :
    (requiredContains (getField innerObjectSchema "required") "b" = false ∧
      gatewayValidate nestedObjectSchema (.obj [("inner", .obj [])]) = none) ∧
    (requiredContains (getField anyKindRequiredSchema "required") "a" = true ∧
      gatewayValidate anyKindRequiredSchema (.obj []) = some (.obj [])) := by
  have hb : jsonSchemaPropertyToZod (.obj [("type", JsValue.str "string")]) = .vstring := by
    rw [translate_node (by simp [isSchemaNode, truthy, isTypeofObject]),
        show getField (.obj [("type", JsValue.str "string")]) "type" = .str "string" from by
          simp [getField, lookupD, List.lookup],
        translateWithType_string]
    simp [wrapNullable, isNullStr, isTrueVal, getField, lookupD, List.lookup, stringBase]
  have hinner : jsonSchemaPropertyToZod innerObjectSchema = .vobject [("b", .vstring)] := by
    rw [show innerObjectSchema =
          .obj [("type", .str "object"),
                ("properties", .obj [("b", .obj [("type", .str "string")])]),
                ("required", .arr [])] from rfl,
        translate_node (by simp [isSchemaNode, truthy, isTypeofObject]),
        show getField (.obj [("type", JsValue.str "object"),
            ("properties", .obj [("b", .obj [("type", JsValue.str "string")])]),
            ("required", .arr [])]) "type" = .str "object" from by
          simp [getField, lookupD, List.lookup],
        translateWithType_object]
    simp [wrapNullable, isNullStr, isTrueVal, getField, lookupD, List.lookup, truthy,
          translateProps_eq, jsEntries, hb]
  have hany : jsonSchemaPropertyToZod (.obj ([] : List (String × JsValue))) = .any := by
    rw [translate_node (by simp [isSchemaNode, truthy, isTypeofObject]),
        show getField (.obj ([] : List (String × JsValue))) "type" = .absent from by
          simp [getField, lookupD, List.lookup],
        translateWithType_nonarr _ .absent rfl]
    simp [wrapNullable, isNullStr, isTrueVal, getField, lookupD, List.lookup, kindBase,
          isSchemaNode, truthy]
  refine ⟨⟨?_, ?_⟩, ?_, ?_⟩
  · simp [innerObjectSchema, getField, lookupD, List.lookup, requiredContains, strMember]
  · unfold gatewayValidate
    rw [show jsonSchemaToZodSchema nestedObjectSchema =
          .shape [("inner", jsonSchemaPropertyToZod innerObjectSchema)] from by
        simp [nestedObjectSchema, innerObjectSchema, jsonSchemaToZodSchema, getField, lookupD,
              List.lookup, truthy, isObjectStr, jsEntries, requiredContains, strMember]]
    rw [hinner]
    simp [topValidator, validate, validateFields, lookupD, List.lookup, isAbsentVal]
  · simp [anyKindRequiredSchema, getField, lookupD, List.lookup, requiredContains, strMember]
  · unfold gatewayValidate
    rw [show jsonSchemaToZodSchema anyKindRequiredSchema =
          .shape [("a", jsonSchemaPropertyToZod (.obj ([] : List (String × JsValue))))] from by
        simp [anyKindRequiredSchema, jsonSchemaToZodSchema, getField, lookupD, List.lookup,
              truthy, isObjectStr, jsEntries, requiredContains, strMember]]
    rw [hany]
    simp [topValidator, validate, validateFields, lookupD, List.lookup, isAbsentVal]

/-- Claim C3 (amended): at the TOP-level object schema the `required` set
governs only the `.optional()` wrapper — validating an object value
succeeds iff every declared property's validator, wrapped `.optional()`
(accepting absence) exactly when the property name is not in `required`,
accepts the property's looked-up value (absent = undefined).  Nested
object schema nodes, however, ignore `required` entirely: translating an
object property schema yields the same validator with and without its
`required` field. -/
theorem C3_required_top_level_only (P : List (String × JsValue)) (r : List JsValue)
    (fs : List (String × JsValue)) (hne : P ≠ []) :
    ((gatewayValidate
        (.obj [("type", .str "object"), ("properties", .obj P), ("required", .arr r)])
        (.obj fs)).isSome = true ↔
      ∀ kv ∈ P,
        (validate
          (if requiredContains (.arr r) kv.1 then jsonSchemaPropertyToZod kv.2
           else .optional (jsonSchemaPropertyToZod kv.2))
          (lookupD fs kv.1)).isSome = true) ∧
    (∀ props req : JsValue,
      jsonSchemaPropertyToZod
          (.obj [("type", .str "object"), ("properties", props), ("required", req)]) =
        jsonSchemaPropertyToZod (.obj [("type", .str "object"), ("properties", props)])) := by
  constructor
  · obtain ⟨p, rest, rfl⟩ : ∃ p rest, P = p :: rest := by
      cases P with
      | nil => exact absurd rfl hne
      | cons a b => exact ⟨a, b, rfl⟩
    have hts : jsonSchemaToZodSchema
        (.obj [("type", .str "object"), ("properties", .obj (p :: rest)),
               ("required", .arr r)]) =
        .shape ((p :: rest).map (fun kv =>
          (kv.1, if requiredContains (.arr r) kv.1 then jsonSchemaPropertyToZod kv.2
                 else .optional (jsonSchemaPropertyToZod kv.2)))) := by
      simp [jsonSchemaToZodSchema, getField, lookupD, List.lookup, truthy, isObjectStr,
            jsEntries]
    unfold gatewayValidate
    rw [hts]
    rw [show validate
          (topValidator (.shape ((p :: rest).map (fun kv =>
            (kv.1, if requiredContains (.arr r) kv.1 then jsonSchemaPropertyToZod kv.2
                   else .optional (jsonSchemaPropertyToZod kv.2))))))
          (.obj fs) =
        (validateFields fs ((p :: rest).map (fun kv =>
          (kv.1, if requiredContains (.arr r) kv.1 then jsonSchemaPropertyToZod kv.2
                 else .optional (jsonSchemaPropertyToZod kv.2))))).map .obj from by
      simp [topValidator, validate]]
    rw [show ((validateFields fs ((p :: rest).map (fun kv =>
          (kv.1, if requiredContains (.arr r) kv.1 then jsonSchemaPropertyToZod kv.2
                 else .optional (jsonSchemaPropertyToZod kv.2))))).map JsValue.obj).isSome =
        (validateFields fs ((p :: rest).map (fun kv =>
          (kv.1, if requiredContains (.arr r) kv.1 then jsonSchemaPropertyToZod kv.2
                 else .optional (jsonSchemaPropertyToZod kv.2))))).isSome from by
      cases validateFields fs ((p :: rest).map (fun kv =>
          (kv.1, if requiredContains (.arr r) kv.1 then jsonSchemaPropertyToZod kv.2
                 else .optional (jsonSchemaPropertyToZod kv.2)))) <;> rfl]
    rw [validateFields_isSome_iff]
    constructor
    · intro hall kv hkv
      have := hall _ (List.mem_map.mpr ⟨kv, hkv, rfl⟩)
      simpa using this
    · intro hall q hq
      obtain ⟨kv, hkv, rfl⟩ := List.mem_map.mp hq
      simpa using hall kv hkv
  · intro props req
    rw [translate_node (by simp [isSchemaNode, truthy, isTypeofObject]),
        translate_node (by simp [isSchemaNode, truthy, isTypeofObject]),
        show getField (.obj [("type", JsValue.str "object"), ("properties", props),
            ("required", req)]) "type" = .str "object" from by
          simp [getField, lookupD, List.lookup],
        show getField (.obj [("type", JsValue.str "object"), ("properties", props)]) "type" =
            .str "object" from by
          simp [getField, lookupD, List.lookup],
        translateWithType_object, translateWithType_object,
        show getField (.obj [("type", JsValue.str "object"), ("properties", props),
            ("required", req)]) "properties" = props from by
          simp [getField, lookupD, List.lookup],
        show getField (.obj [("type", JsValue.str "object"), ("properties", props)])
            "properties" = props from by
          simp [getField, lookupD, List.lookup]]
    simp [wrapNullable, isTrueVal, isNullStr, getField, lookupD, List.lookup]

/-- Witness for the amended C3: a top-level schema with the required number
property "a" accepts `{a: 1}`. -/
theorem C3_witness :
    (gatewayValidate
        (.obj [("type", .str "object"),
               ("properties", .obj [("a", .obj [("type", .str "number")])]),
               ("required", .arr [.str "a"])])
        (.obj [("a", .num 1)])).isSome = true := by
  rw [(C3_required_top_level_only [("a", .obj [("type", .str "number")])] [.str "a"]
        [("a", .num 1)] (by simp)).1]
  intro kv hkv
  rcases List.mem_cons.mp hkv with rfl | hc
  · rw [show requiredContains (.arr [.str "a"]) "a" = true from by
        simp [requiredContains, strMember]]
    rw [if_pos rfl]
    rw [show jsonSchemaPropertyToZod (.obj [("type", JsValue.str "number")]) = .vnumber from by
      rw [translate_node (by simp [isSchemaNode, truthy, isTypeofObject]),
          show getField (.obj [("type", JsValue.str "number")]) "type" = .str "number" from by
            simp [getField, lookupD, List.lookup],
          translateWithType_number]
      simp [wrapNullable, isNullStr, isTrueVal, getField, lookupD, List.lookup]]
    simp [lookupD, List.lookup, validate]
  · cases hc
